import Mathlib

/-!
Verification of the retrieval-and-ranking pipeline of the indian-legal-ai
repository: a shallow embedding in Lean 4 of the pure core of
`backend/services/case_law_service.py` and `legal_ai_service.py`, together
with proofs and refutations of the specified properties.

Modelling conventions:
* Python strings are Lean `String`s (lists of characters); the ASCII
  fragments of `str.lower()`, `str.isdigit()` and the regex character
  classes are modelled with Lean's ASCII character predicates.
* Python floats appear only as the relevance score, which is always a sum
  of the exact literals 2.0, 1.0, 1.5, 0.5; these are modelled as rationals
  (`ℚ`), on which that arithmetic is exact, as it is in IEEE doubles.
* HTML documents are abstracted at the BeautifulSoup boundary: a search
  response is a status code plus the list of `div.result` elements, each
  already reduced to its relevant sub-elements (`a.cite_tag`,
  `div.snippets`, `div.metadata` text).  A fragment whose parsing raises an
  exception is modelled by the `raises` flag (the source catches such
  exceptions per fragment and skips the fragment).
* Network transport is an explicit `Except` input: `.error` models a
  transport/network exception, `.ok` a received response.
-/

namespace LegalAI

/-! ## Characters and strings: Python primitives -/

/-- Python `str.split()` whitespace class (`\s`, ASCII fragment). -/
def pyWs (c : Char) : Bool :=
  c = ' ' || c = '\t' || c = '\n' || c = '\r' || c = '\x0b' || c = '\x0c'

/-- Python regex `\w` class (ASCII fragment): alphanumeric or underscore. -/
def isWordChar (c : Char) : Bool :=
  c.isAlphanum || c = '_'

/-- Python `str.lower()` (ASCII fragment). -/
def toLowerStr (s : String) : String :=
  ⟨s.data.map Char.toLower⟩

/-- Infix test on lists: `needle` occurs contiguously inside `hay`. -/
def listInfixOf (needle : List Char) : List Char → Bool
  | [] => needle.isEmpty
  | c :: cs => needle.isPrefixOf (c :: cs) || listInfixOf needle cs

/-- Python substring test `needle in hay`. -/
def containsSub (hay needle : String) : Bool :=
  listInfixOf needle.data hay.data

/-- Python `int(s)` on a string of decimal digits. -/
def strToNat (s : String) : Nat :=
  s.data.foldl (fun n c => 10 * n + (c.toNat - 48)) 0

/-- Python `s.isdigit()` (ASCII fragment): nonempty and all digits. -/
def isDigitStr (s : String) : Bool :=
  !s.data.isEmpty && s.data.all Char.isDigit

/-- Accumulator for `wordsChars`: splits on runs of whitespace, dropping
empty pieces, exactly as Python `str.split()` with no argument. -/
def wordsAux : List Char → List Char → List (List Char)
  | [], acc => if acc.isEmpty then [] else [acc.reverse]
  | c :: cs, acc =>
    if pyWs c then
      if acc.isEmpty then wordsAux cs [] else acc.reverse :: wordsAux cs []
    else wordsAux cs (c :: acc)

/-- Python `str.split()` on a character list. -/
def wordsChars (l : List Char) : List (List Char) :=
  wordsAux l []

/-- Python `' '.join(ws)` on character lists. -/
def joinSp : List (List Char) → List Char
  | [] => []
  | [w] => w
  | w :: ws => w ++ ' ' :: joinSp ws

/-! ## The regular-expression matchers of `case_law_service.py`

Each Python `re.search` is modelled by a position matcher (match attempt at
the start of a suffix) together with the generic leftmost scan
`searchFirst`.  All the patterns involved admit deterministic
maximal-munch matching (every quantified class is followed by a disjoint
class or literal), so no general backtracking engine is needed; the one
true alternative, `(?:High )?`, is tried greedily first, as Python does. -/

/-- Leftmost search: try the position matcher at every suffix, earliest
position first (the semantics of `re.search`). -/
def searchFirst (m : List Char → Option α) : List Char → Option α
  | [] => none
  | c :: cs =>
    match m (c :: cs) with
    | some a => some a
    | none => searchFirst m cs

/-- Match exactly `n` decimal digits, returning them and the rest. -/
def exactDigits : Nat → List Char → Option (List Char × List Char)
  | 0, l => some ([], l)
  | _ + 1, [] => none
  | n + 1, c :: cs =>
    if c.isDigit then (exactDigits n cs).map (fun p => (c :: p.1, p.2)) else none

/-- Match the slash-or-dash character class of the date pattern. -/
def sepSlashDash : List Char → Option (Char × List Char)
  | [] => none
  | c :: cs => if c = '/' || c = '-' then some (c, cs) else none

/-- Position matcher for `/doc/(\d+)/` (the case-id pattern); returns the
captured digit group. -/
def docIdMatchAt (l : List Char) : Option (List Char) :=
  match l with
  | '/' :: 'd' :: 'o' :: 'c' :: '/' :: rest =>
    let p := rest.span Char.isDigit
    if p.1.isEmpty then none
    else
      match p.2 with
      | '/' :: _ => some p.1
      | _ => none
  | _ => none

/-- Position matcher for `([A-Z][a-z]+ (?:High )?Court)`.  The greedy
optional group tries `High ` first, as the Python engine does. -/
def courtMatchAt (l : List Char) : Option (List Char) :=
  match l with
  | [] => none
  | c :: rest =>
    if c.isUpper then
      let p := rest.span Char.isLower
      if p.1.isEmpty then none
      else
        match p.2 with
        | ' ' :: rest3 =>
          if "High Court".data.isPrefixOf rest3 then
            some (c :: (p.1 ++ ' ' :: "High Court".data))
          else if "Court".data.isPrefixOf rest3 then
            some (c :: (p.1 ++ ' ' :: "Court".data))
          else none
        | _ => none
    else none

/-- One backtracking alternative of the date pattern: one-or-two digits, a
slash or dash, one-or-two digits, a slash or dash, four digits; the two
greedy `1,2` quantifiers are fixed here to `n1` and `n2` digits. -/
def dateTry (n1 n2 : Nat) (l : List Char) : Option (List Char) := do
  let (a, l1) ← exactDigits n1 l
  let (s1, l2) ← sepSlashDash l1
  let (b, l3) ← exactDigits n2 l2
  let (s2, l4) ← sepSlashDash l3
  let (c, _) ← exactDigits 4 l4
  some (a ++ s1 :: (b ++ s2 :: c))

/-- Position matcher for the date pattern, trying the greedy quantifier
alternatives in the order the Python engine does. -/
def dateMatchAt (l : List Char) : Option (List Char) :=
  (dateTry 2 2 l).orElse fun _ =>
    (dateTry 2 1 l).orElse fun _ =>
      (dateTry 1 2 l).orElse fun _ => dateTry 1 1 l

/-- Position matcher for `\((\d{4})\)` (the year pattern); returns the
captured digit group. -/
def yearMatchAt (l : List Char) : Option (List Char) :=
  match l with
  | '(' :: rest =>
    match exactDigits 4 rest with
    | some (ds, rest2) =>
      match rest2 with
      | ')' :: _ => some ds
      | _ => none
    | none => none
  | _ => none

/-- Position matcher for the citation pattern
`\[(\d{4})\]\s+\d+\s+[A-Z]+\s+\d+`; returns the captured year group and
the remainder after the whole match (for non-overlapping `findall`). -/
def citMatchAt (l : List Char) : Option (List Char × List Char) :=
  match l with
  | '[' :: l1 =>
    match exactDigits 4 l1 with
    | some (ds, l2) =>
      match l2 with
      | ']' :: l3 =>
        let w1 := l3.span pyWs
        if w1.1.isEmpty then none
        else
          let d2 := w1.2.span Char.isDigit
          if d2.1.isEmpty then none
          else
            let w2 := d2.2.span pyWs
            if w2.1.isEmpty then none
            else
              let u := w2.2.span Char.isUpper
              if u.1.isEmpty then none
              else
                let w3 := u.2.span pyWs
                if w3.1.isEmpty then none
                else
                  let d3 := w3.2.span Char.isDigit
                  if d3.1.isEmpty then none else some (ds, d3.2)
      | _ => none
    | none => none
  | _ => none

/-- Non-overlapping leftmost scan of the citation pattern (`re.findall`,
which with a capture group in the pattern returns the list of captured
groups).  The fuel argument is initialised to the text length; each step
consumes at least one character, so the fuel never runs out first. -/
def citScan : Nat → List Char → List String
  | 0, _ => []
  | _ + 1, [] => []
  | fuel + 1, c :: cs =>
    match citMatchAt (c :: cs) with
    | some (ds, rest) => (⟨ds⟩ : String) :: citScan fuel rest
    | none => citScan fuel cs

/-- `re.findall(r'\[(\d{4})\]\s+\d+\s+[A-Z]+\s+\d+', text)`. -/
def citFindall (text : String) : List String :=
  citScan text.data.length text.data

/-! ## Data model -/

/-- `settings.INDIANKANOON_BASE_URL` (from `utils/config.py`). -/
def indiankanoon_base : String := "https://indiankanoon.org"

/-- One candidate case-law record, as built by `_parse_search_result`.
The Python code stores it as a dict; `topic_matches` is absent until
`_enhance_with_topics` sets it and is read back with `.get(_, 0)`, so it is
modelled as a field that is `0` at creation. -/
structure Result where
  id : String
  title : String
  summary : String
  court : String
  date : String
  year : String
  url : String
  relevance : ℚ
  topic_matches : Nat
deriving DecidableEq

/-- The `<a class='cite_tag'>` anchor of a result fragment: its stripped
text and its `href` attribute. -/
structure CiteTag where
  text : String
  href : String
deriving DecidableEq

/-- One `div.result` fragment of a search page, abstracted at the
BeautifulSoup boundary.  `raises` models a fragment on which
`_parse_search_result` raises an exception (caught there, yielding `None`,
so the fragment is skipped). -/
structure ResultDiv where
  raises : Bool
  cite_tag : Option CiteTag
  snippets : Option String
  metadata : Option String
deriving DecidableEq

/-- An HTTP search response: status code and the `div.result` elements
found in the body. -/
structure HttpResponse where
  status : Nat
  result_divs : List ResultDiv
deriving DecidableEq

/-- A statute section record as returned by `BareActsService`
(`bare_acts_service.py`). -/
structure StatuteSection where
  act_name : String
  «section» : String
  text : String
  url : String
  relevance : ℚ
deriving DecidableEq

/-- A vector-store document (`langchain.schema.Document`): only its
`page_content` is consumed by `_build_context`. -/
structure VectorDoc where
  page_content : String
deriving DecidableEq

/-! ## Operations of `case_law_service.py` -/

/-- `re.sub(r'[^\w\s]', ' ', query)`: replace every character outside the
word/whitespace classes by a space. -/
def subW (l : List Char) : List Char :=
  l.map fun c => if isWordChar c || pyWs c then c else ' '

/-- `_clean_query` on the character list: substitute, split, rejoin. -/
def cleanChars (l : List Char) : List Char :=
  joinSp (wordsChars (subW l))

/-- `_clean_query`: `re.sub(r'[^\w\s]', ' ', query)` followed by
`' '.join(clean.split())`. -/
def clean_query (query : String) : String :=
  ⟨cleanChars query.data⟩

/-- `_parse_search_result`: parse one `div.result` fragment into a
candidate record; `none` both when the `cite_tag` anchor is missing and
when parsing raises (the source catches the exception and returns `None`).
Field extraction is best effort: every regex miss yields the empty
string. -/
def parse_search_result (div : ResultDiv) : Option Result :=
  if div.raises then none
  else
    match div.cite_tag with
    | none => none
    | some tag =>
      let title := tag.text
      let link := tag.href
      let case_id : String := ((searchFirst docIdMatchAt link.data).map fun ds => (⟨ds⟩ : String)).getD ""
      let summary := div.snippets.getD ""
      let court : String :=
        match div.metadata with
        | some meta => ((searchFirst courtMatchAt meta.data).map fun cs => (⟨cs⟩ : String)).getD ""
        | none => ""
      let date : String :=
        match div.metadata with
        | some meta => ((searchFirst dateMatchAt meta.data).map fun cs => (⟨cs⟩ : String)).getD ""
        | none => ""
      let year : String :=
        match div.metadata with
        | some meta => ((searchFirst yearMatchAt meta.data).map fun ds => (⟨ds⟩ : String)).getD ""
        | none => ""
      some
        { id := case_id, title := title, summary := summary, court := court,
          date := date, year := year, url := indiankanoon_base ++ link,
          relevance := 0.0, topic_matches := 0 }

/-- `_search_indiankanoon`: issue the GET (the transport and the fetched
document are the explicit `resp` input; the request URL built from
`_clean_query query` is abstracted into it), return `[]` on a transport
exception or a non-200 status, and otherwise parse the first `limit`
result fragments, skipping any fragment that fails to parse. -/
def search_indiankanoon (resp : Except String HttpResponse) (query : String)
    (limit : Nat) : List Result :=
  match resp with
  | Except.error _ => []
  | Except.ok r =>
    if r.status ≠ 200 then []
    else (r.result_divs.take limit).filterMap parse_search_result

/-- `_enhance_with_topics`: store in each result the number of supplied
topics occurring case-insensitively in title-plus-summary. -/
def enhance_with_topics (results : List Result) (topics : List String) : List Result :=
  results.map fun r =>
    let combined := toLowerStr (r.title ++ " " ++ r.summary)
    { r with topic_matches := topics.countP fun t => containsSub combined (toLowerStr t) }

/-- The additive relevance score computed inside `_rank_by_relevance` for
one result. -/
def rankScore (query : String) (r : Result) : ℚ :=
  let query_terms := (wordsChars (toLowerStr query).data).dedup
  let combined := toLowerStr (r.title ++ " " ++ r.summary)
  let term_matches := query_terms.countP fun t => listInfixOf t combined.data
  (r.topic_matches : ℚ) * 2.0
    + (term_matches : ℚ) * 1.0
    + (if containsSub r.court "Supreme Court" then 1.5 else 0)
    + (if isDigitStr r.year then
        (if 2020 ≤ strToNat r.year then 1.0
         else if 2015 ≤ strToNat r.year then 0.5 else 0)
       else 0)

/-- Writing the computed score into the record (the in-place
`result['relevance'] = score` of the source). -/
def assignRel (query : String) (r : Result) : Result :=
  { r with relevance := rankScore query r }

/-- Stable descending insertion: place `r` before the first element whose
relevance does not exceed it.  (An element inserted earlier in the fold
came earlier in the input, so equal scores keep input order.) -/
def insertDesc (r : Result) : List Result → List Result
  | [] => [r]
  | x :: xs => if x.relevance ≤ r.relevance then r :: x :: xs else x :: insertDesc r xs

/-- Stable sort by descending relevance, modelling Python
`sorted(results, key=lambda x: x['relevance'], reverse=True)` (which is
guaranteed stable). -/
def sortDesc : List Result → List Result
  | [] => []
  | r :: rs => insertDesc r (sortDesc rs)

/-- `_rank_by_relevance`: compute and store each score, then stably sort
by descending relevance. -/
def rank_by_relevance (results : List Result) (query : String) : List Result :=
  sortDesc (results.map (assignRel query))

/-- `search_cases`: search, enhance with topics, rank, and return the top
`limit` results.  The body's catch-all `except` returns `[]`; the only
fallible step, the network search, is modelled by the explicit `resp`
input, and the remaining stages are pure. -/
def search_cases (resp : Except String HttpResponse) (query : String)
    (topics : List String) (limit : Nat) : List Result :=
  let indiankanoon_results := search_indiankanoon resp query limit
  let enhanced_results := enhance_with_topics indiankanoon_results topics
  let ranked_results := rank_by_relevance enhanced_results query
  ranked_results.take limit

/-- `_extract_outcome`: first-match-wins keyword scan over the lowercased
summary. -/
def extract_outcome (c : Result) : String :=
  let summary := toLowerStr c.summary
  if ["dismissed", "rejected", "no merit"].any (fun w => containsSub summary w) then
    "Defendant"
  else if ["allowed", "granted", "favor of plaintiff"].any (fun w => containsSub summary w) then
    "Plaintiff"
  else if ["settled", "compromise"].any (fun w => containsSub summary w) then
    "Settled"
  else "Unknown"

/-- `_extract_citations`: `re.findall` of the citation pattern over the
page text, then `list(set(matches))`.  Python's set iteration order is
unspecified; it is modelled here by order-preserving deduplication, and
nothing proved below depends on the order (the inputs used have at most
one distinct match). -/
def extract_citations (text : String) : List String :=
  (citFindall text).dedup

/-! ## `_build_context` of `legal_ai_service.py` -/

/-- The statute-section line `f"- {act['act_name']}, Section {act['section']}: {act['text']}"`. -/
def fmtAct (act : StatuteSection) : String :=
  "- " ++ (act.act_name ++ ", Section " ++ act.«section» ++ ": " ++ act.text)

/-- The case-law line `f"- {case['title']} ({case['year']}): {case['summary']}"`. -/
def fmtCase (c : Result) : String :=
  "- " ++ (c.title ++ " (" ++ c.year ++ "): " ++ c.summary)

/-- The vector-snippet line `f"- {doc.page_content[:200]}..."`: the snippet
cut to its first 200 characters, with the truncation indicator appended. -/
def fmtDoc (doc : VectorDoc) : String :=
  "- " ++ (doc.page_content.take 200 ++ "...")

/-- The `context_parts` list assembled by `_build_context`: a header plus
at most three formatted statute sections when any exist, a header plus at
most three formatted case laws when any exist, and a header plus at most
two vector snippets when any exist. -/
def context_parts (bare_acts : List StatuteSection) (case_laws : List Result)
    (vector_docs : List VectorDoc) : List String :=
  (if bare_acts.isEmpty then []
   else "Relevant Bare Act Sections:" :: (bare_acts.take 3).map fmtAct)
    ++ (if case_laws.isEmpty then []
        else "\nRelevant Case Laws:" :: (case_laws.take 3).map fmtCase)
    ++ (if vector_docs.isEmpty then []
        else "\nAdditional Context:" :: (vector_docs.take 2).map fmtDoc)

/-- `_build_context`: the newline join of `context_parts`. -/
def build_context (bare_acts : List StatuteSection) (case_laws : List Result)
    (vector_docs : List VectorDoc) : String :=
  String.intercalate "\n" (context_parts bare_acts case_laws vector_docs)

/-! ## Specification-side definitions

These restate, in the specification's own words, the formulas whose
agreement with the code is claimed; they are compared with the embedded
code above. -/

/-- The recency bonus as the specification words it: from the `year`
field when it is numeric, `+1.0` if `year ≥ 2020`, `+0.5` if
`2015 ≤ year < 2020`, and `+0` otherwise, including any non-numeric
year. -/
def claimRecencyBonus (year : String) : ℚ :=
  if isDigitStr year then
    (if 2020 ≤ strToNat year then 1.0
     else if 2015 ≤ strToNat year ∧ strToNat year < 2020 then 0.5 else 0)
  else 0

/-- The relevance formula as the specification words it: `2.0` times the
topic-match count, plus `1.0` times the number of distinct lowercase
whitespace-separated query terms occurring as substrings of the lowercased
concatenation of title and summary (the code concatenates them with a
single separating space), plus a `1.5` bonus when the court field
contains `"Supreme Court"`, plus the recency bonus. -/
def claimScore (r : Result) (query : String) : ℚ :=
  let combined := toLowerStr (r.title ++ " " ++ r.summary)
  let distinct_terms := (wordsChars (toLowerStr query).data).dedup
  2.0 * (r.topic_matches : ℚ)
    + 1.0 * ((distinct_terms.countP fun t => listInfixOf t combined.data : Nat) : ℚ)
    + (if containsSub r.court "Supreme Court" then 1.5 else 0)
    + claimRecencyBonus r.year

/-- The outcome classification as the specification words it: a
case-insensitive keyword scan of the summary, evaluated in a fixed order
with the first matching category winning. -/
def spec_extract_outcome (summary : String) : String :=
  let s := toLowerStr summary
  if ["dismissed", "rejected", "no merit"].any (fun w => containsSub s w) then "Defendant"
  else if ["allowed", "granted", "favor of plaintiff"].any (fun w => containsSub s w) then "Plaintiff"
  else if ["settled", "compromise"].any (fun w => containsSub s w) then "Settled"
  else "Unknown"

/-! ## Concrete inputs used to instantiate the quantified claims -/

/-- A concrete result to instantiate the quantified claims on. -/
def sampleResult : Result :=
  { id := "7", title := "Bank Case", summary := "cheque bounce",
    court := "Supreme Court of India", date := "", year := "2021",
    url := "https://indiankanoon.org/doc/7/", relevance := 0, topic_matches := 0 }

/-- A result record with the given summary and all other fields empty. -/
def caseWithSummary (s : String) : Result :=
  { id := "", title := "", summary := s, court := "", date := "", year := "",
    url := "", relevance := 0, topic_matches := 0 }

/-- A fragment that parses to a result matching nothing for the query
`"bank"`: no summary, no metadata, title `"misc"`. -/
def lowDiv : ResultDiv :=
  { raises := false, cite_tag := some { text := "misc", href := "/doc/1/" },
    snippets := none, metadata := none }

/-- A fragment that parses to a high-scoring result for the query
`"bank"`: matching title, Supreme Court metadata, year 2022. -/
def highDiv : ResultDiv :=
  { raises := false, cite_tag := some { text := "bank", href := "/doc/2/" },
    snippets := none, metadata := some "Supreme Court (2022)" }

/-- A fragment on which parsing raises an exception. -/
def badDiv : ResultDiv :=
  { raises := true, cite_tag := some { text := "x", href := "" },
    snippets := none, metadata := none }

/-- A 200 response whose first fragment scores low and whose second scores
high. -/
def respCrowd : HttpResponse :=
  { status := 200, result_divs := [lowDiv, highDiv] }

/-- A 200 response with one fragment that raises during parsing followed
by one healthy fragment. -/
def respPartial : HttpResponse :=
  { status := 200, result_divs := [badDiv, lowDiv] }

/-- What `lowDiv` parses to. -/
def lowRec : Result :=
  { id := "1", title := "misc", summary := "", court := "", date := "", year := "",
    url := indiankanoon_base ++ "/doc/1/", relevance := 0.0, topic_matches := 0 }

/-- What `highDiv` parses to. -/
def highRec : Result :=
  { id := "2", title := "bank", summary := "", court := "Supreme Court", date := "",
    year := "2022", url := indiankanoon_base ++ "/doc/2/", relevance := 0.0,
    topic_matches := 0 }

/-- A concrete vector-store document. -/
def sampleDoc : VectorDoc := { page_content := "short snippet" }

/-- A concrete statute section (the record shape returned by the mock
`BareActsService`). -/
def sampleAct : StatuteSection :=
  { act_name := "Indian Penal Code", «section» := "420",
    text := "Cheating and dishonestly inducing delivery of property",
    url := "https://www.indiacode.nic.in/", relevance := 0.9 }

/-! ## Lemmas about the stable descending insertion sort -/

theorem mem_insertDesc {a r : Result} :
    ∀ {l : List Result}, a ∈ insertDesc r l → a = r ∨ a ∈ l := by
  intro l
  induction l with
  | nil =>
    intro h
    simp only [insertDesc, List.mem_singleton] at h
    exact Or.inl h
  | cons x xs ih =>
    intro h
    by_cases hc : x.relevance ≤ r.relevance
    · simp only [insertDesc, if_pos hc, List.mem_cons] at h
      rcases h with h | h | h
      · exact Or.inl h
      · exact Or.inr (List.mem_cons.mpr (Or.inl h))
      · exact Or.inr (List.mem_cons_of_mem x h)
    · simp only [insertDesc, if_neg hc, List.mem_cons] at h
      rcases h with h | h
      · exact Or.inr (h ▸ List.mem_cons_self x xs)
      · rcases ih h with h | h
        · exact Or.inl h
        · exact Or.inr (List.mem_cons_of_mem x h)

theorem mem_sortDesc {a : Result} :
    ∀ {l : List Result}, a ∈ sortDesc l → a ∈ l := by
  intro l
  induction l with
  | nil => intro h; simpa [sortDesc] using h
  | cons r rs ih =>
    intro h
    rcases mem_insertDesc h with h | h
    · exact h ▸ List.mem_cons_self r rs
    · exact List.mem_cons_of_mem r (ih h)

theorem pairwise_insertDesc {r : Result} :
    ∀ {l : List Result}, List.Pairwise (fun a b => b.relevance ≤ a.relevance) l →
      List.Pairwise (fun a b => b.relevance ≤ a.relevance) (insertDesc r l) := by
  intro l
  induction l with
  | nil => intro _; simp [insertDesc]
  | cons x xs ih =>
    intro h
    rcases List.pairwise_cons.mp h with ⟨hx, hxs⟩
    by_cases hc : x.relevance ≤ r.relevance
    · simp only [insertDesc, if_pos hc]
      refine List.pairwise_cons.mpr ⟨?_, h⟩
      intro b hb
      rcases List.mem_cons.mp hb with hb | hb
      · exact hb ▸ hc
      · exact le_trans (hx b hb) hc
    · simp only [insertDesc, if_neg hc]
      refine List.pairwise_cons.mpr ⟨?_, ih hxs⟩
      intro b hb
      rcases mem_insertDesc hb with hb | hb
      · exact hb ▸ le_of_lt (lt_of_not_le hc)
      · exact hx b hb

theorem pairwise_sortDesc :
    ∀ l : List Result, List.Pairwise (fun a b => b.relevance ≤ a.relevance) (sortDesc l) := by
  intro l
  induction l with
  | nil => simp [sortDesc]
  | cons r rs ih => exact pairwise_insertDesc ih

theorem filter_insertDesc_eq {s : ℚ} {r : Result} (h : r.relevance = s) :
    ∀ l : List Result,
      (insertDesc r l).filter (fun a => decide (a.relevance = s)) =
        r :: l.filter (fun a => decide (a.relevance = s)) := by
  intro l
  induction l with
  | nil => simp [insertDesc, List.filter, h]
  | cons x xs ih =>
    by_cases hc : x.relevance ≤ r.relevance
    · simp only [insertDesc, if_pos hc]
      simp [List.filter_cons, h]
    · have hx : ¬ x.relevance = s := by
        intro hxs
        exact hc (le_of_eq (hxs.trans h.symm))
      simp only [insertDesc, if_neg hc]
      simp [List.filter_cons, hx, ih]

theorem filter_insertDesc_ne {s : ℚ} {r : Result} (h : ¬ r.relevance = s) :
    ∀ l : List Result,
      (insertDesc r l).filter (fun a => decide (a.relevance = s)) =
        l.filter (fun a => decide (a.relevance = s)) := by
  intro l
  induction l with
  | nil => simp [insertDesc, List.filter, h]
  | cons x xs ih =>
    by_cases hc : x.relevance ≤ r.relevance
    · simp only [insertDesc, if_pos hc]
      simp [List.filter_cons, h]
    · simp only [insertDesc, if_neg hc]
      simp [List.filter_cons, ih]

theorem filter_sortDesc (s : ℚ) :
    ∀ l : List Result,
      (sortDesc l).filter (fun a => decide (a.relevance = s)) =
        l.filter (fun a => decide (a.relevance = s)) := by
  intro l
  induction l with
  | nil => simp [sortDesc]
  | cons r rs ih =>
    by_cases h : r.relevance = s
    · simp only [sortDesc]
      rw [filter_insertDesc_eq h, ih]
      simp [List.filter_cons, h]
    · simp only [sortDesc]
      rw [filter_insertDesc_ne h, ih]
      simp [List.filter_cons, h]

/-- The code's score equals the score formula as the specification words
it (the two recency conditionals agree because the second branch is only
reached when the year is below 2020). -/
theorem claimScore_eq_rankScore (query : String) (r : Result) :
    claimScore r query = rankScore query r := by
  simp only [claimScore, rankScore, claimRecencyBonus]
  split_ifs <;> first | ring1 | (exfalso; omega)

/-- `rankScore` does not read the `relevance` field, so rescoring an
already-rescored record gives the same score. -/
theorem rankScore_assignRel (query : String) (r : Result) :
    rankScore query (assignRel query r) = rankScore query r := rfl

/-! ## Claim C1 -/

/-- C1: for every candidate result and query, the relevance score assigned
by `_rank_by_relevance` equals the additive formula of the specification:
2.0 times the topic-match count, plus 1.0 per distinct lowercase
whitespace-separated query term occurring as a substring of the lowercased
title-plus-summary, plus a 1.5 bonus when the court field contains
"Supreme Court", plus the recency bonus (+1.0 for a numeric year at least
2020, +0.5 for one in 2015 to 2019, +0 otherwise, including every
non-numeric year). -/
theorem rank_assigns_claim_formula (results : List Result) (query : String) :
    ∀ r ∈ rank_by_relevance results query, r.relevance = claimScore r query := by
  intro r hr
  have hmem : r ∈ results.map (assignRel query) := mem_sortDesc hr
  rcases List.mem_map.mp hmem with ⟨r0, _, hr0⟩
  subst hr0
  calc (assignRel query r0).relevance
      = rankScore query r0 := rfl
    _ = rankScore query (assignRel query r0) := (rankScore_assignRel query r0).symm
    _ = claimScore (assignRel query r0) query := (claimScore_eq_rankScore query _).symm

/-- Witness for C1: the formula holds on a concrete ranked result. -/
theorem rank_assigns_claim_formula_witness :
    ((rank_by_relevance [sampleResult] "bank").headD sampleResult).relevance
      = claimScore ((rank_by_relevance [sampleResult] "bank").headD sampleResult) "bank" :=
  rank_assigns_claim_formula [sampleResult] "bank" _ (List.mem_singleton.mpr rfl)

/-! ## Claim C2 -/

/-- C2: the ranked sequence has non-increasing relevance scores, and
results with equal scores keep the relative order they had before the
sort (the list being sorted is the input list with each result's score
written in place, in input order): for every score value, the sub-list of
results carrying that score is unchanged by the sort. -/
theorem ranked_sorted_and_stable (results : List Result) (query : String) :
    List.Pairwise (fun a b => b.relevance ≤ a.relevance) (rank_by_relevance results query) ∧
      ∀ s : ℚ,
        (rank_by_relevance results query).filter (fun a => decide (a.relevance = s)) =
          (results.map (assignRel query)).filter (fun a => decide (a.relevance = s)) := by
  constructor
  · exact pairwise_sortDesc (results.map (assignRel query))
  · intro s
    exact filter_sortDesc s (results.map (assignRel query))

/-! ## Claim C8 -/

/-- C8: topic enhancement followed by ranking never changes a result's
identity fields: every result of the ranked output comes from an input
result with the same `id`, `title` and `url`, and differs from it at most
in the `relevance` and `topic_matches` fields. -/
theorem pipeline_preserves_identity_fields (results : List Result)
    (topics : List String) (query : String) :
    ∀ r2 ∈ rank_by_relevance (enhance_with_topics results topics) query,
      ∃ r ∈ results, r2.id = r.id ∧ r2.title = r.title ∧ r2.url = r.url ∧
        r2 = { r with relevance := r2.relevance, topic_matches := r2.topic_matches } := by
  intro r2 hr2
  have hmem : r2 ∈ (enhance_with_topics results topics).map (assignRel query) :=
    mem_sortDesc hr2
  rcases List.mem_map.mp hmem with ⟨e, he, her⟩
  rcases List.mem_map.mp he with ⟨r, hr, hre⟩
  subst hre
  subst her
  exact ⟨r, hr, rfl, rfl, rfl, rfl⟩

/-- Witness for C8: the preservation holds on a concrete ranked result. -/
theorem pipeline_preserves_identity_fields_witness :
    ∃ r ∈ [sampleResult],
      ((rank_by_relevance (enhance_with_topics [sampleResult] ["cheque"]) "bank").headD
          sampleResult).id = r.id ∧
        ((rank_by_relevance (enhance_with_topics [sampleResult] ["cheque"]) "bank").headD
            sampleResult).title = r.title ∧
          ((rank_by_relevance (enhance_with_topics [sampleResult] ["cheque"]) "bank").headD
              sampleResult).url = r.url ∧
            (rank_by_relevance (enhance_with_topics [sampleResult] ["cheque"]) "bank").headD
                sampleResult =
              { r with
                relevance :=
                  ((rank_by_relevance (enhance_with_topics [sampleResult] ["cheque"])
                        "bank").headD sampleResult).relevance,
                topic_matches :=
                  ((rank_by_relevance (enhance_with_topics [sampleResult] ["cheque"])
                        "bank").headD sampleResult).topic_matches } :=
  pipeline_preserves_identity_fields [sampleResult] ["cheque"] "bank" _
    (List.mem_singleton.mpr rfl)

/-! ## Claim C5 -/

/-- C5: outcome extraction is the case-insensitive first-match-wins
keyword cascade of the specification (Defendant keywords, then Plaintiff
keywords, then Settled keywords, else Unknown), and the four example
summaries of the specification classify as stated. -/
theorem outcome_extraction_matches_spec :
    (∀ c : Result, extract_outcome c = spec_extract_outcome c.summary) ∧
      extract_outcome (caseWithSummary "the petition was dismissed for lack of merit") =
          "Defendant" ∧
        extract_outcome (caseWithSummary "relief was granted in favor of plaintiff") =
            "Plaintiff" ∧
          extract_outcome (caseWithSummary "the parties settled") = "Settled" ∧
            extract_outcome (caseWithSummary "the court noted procedural history") =
              "Unknown" :=
  ⟨fun _ => rfl, rfl, rfl, rfl, rfl⟩

/-! ## Claim C10 -/

/-- C10: with no statute sections, no case laws and no vector documents,
`_build_context` returns exactly the empty string. -/
theorem build_context_all_empty : build_context [] [] [] = "" := rfl

/-! ## Lemmas about `_clean_query` -/

theorem wordsAux_append_word {w : List Char} (hw : ∀ c ∈ w, pyWs c = false) :
    ∀ l acc : List Char, wordsAux (w ++ l) acc = wordsAux l (w.reverse ++ acc) := by
  induction w with
  | nil => intro l acc; simp
  | cons c ws ih =>
    intro l acc
    have hc : pyWs c = false := hw c (List.mem_cons_self c ws)
    have hws : ∀ d ∈ ws, pyWs d = false := fun d hd => hw d (List.mem_cons_of_mem c hd)
    simp only [List.cons_append, wordsAux, hc, Bool.false_eq_true, if_false]
    simp [List.append_eq, ih hws, List.reverse_cons, List.append_assoc]

theorem wordsAux_words_ok :
    ∀ l acc : List Char, (∀ c ∈ acc, pyWs c = false) →
      ∀ w ∈ wordsAux l acc, w ≠ [] ∧ ∀ c ∈ w, pyWs c = false := by
  intro l
  induction l with
  | nil =>
    intro acc hacc w hw
    by_cases h : acc.isEmpty
    · simp [wordsAux, h] at hw
    · simp only [wordsAux, h, Bool.false_eq_true, if_false, List.mem_singleton] at hw
      subst hw
      refine ⟨by simpa [List.isEmpty_iff] using h, ?_⟩
      intro c hc
      exact hacc c (List.mem_reverse.mp hc)
  | cons c cs ih =>
    intro acc hacc w hw
    by_cases hc : pyWs c
    · by_cases h : acc.isEmpty
      · simp only [wordsAux, hc, if_true, h] at hw
        exact ih [] (by simp) w hw
      · simp only [wordsAux, hc, if_true, h, Bool.false_eq_true, if_false,
          List.mem_cons] at hw
        rcases hw with hw | hw
        · subst hw
          refine ⟨by simpa [List.isEmpty_iff] using h, ?_⟩
          intro d hd
          exact hacc d (List.mem_reverse.mp hd)
        · exact ih [] (by simp) w hw
    · simp only [wordsAux, hc, Bool.false_eq_true, if_false] at hw
      refine ih (c :: acc) ?_ w hw
      intro d hd
      rcases List.mem_cons.mp hd with hd | hd
      · subst hd; simpa using hc
      · exact hacc d hd

theorem wordsAux_chars_from :
    ∀ l acc : List Char, ∀ w ∈ wordsAux l acc, ∀ c ∈ w, c ∈ l ∨ c ∈ acc := by
  intro l
  induction l with
  | nil =>
    intro acc w hw c hc
    by_cases h : acc.isEmpty
    · simp [wordsAux, h] at hw
    · simp only [wordsAux, h, Bool.false_eq_true, if_false, List.mem_singleton] at hw
      subst hw
      exact Or.inr (List.mem_reverse.mp hc)
  | cons a cs ih =>
    intro acc w hw c hc
    by_cases ha : pyWs a
    · by_cases h : acc.isEmpty
      · simp only [wordsAux, ha, if_true, h] at hw
        rcases ih [] w hw c hc with h2 | h2
        · exact Or.inl (List.mem_cons_of_mem a h2)
        · simp at h2
      · simp only [wordsAux, ha, if_true, h, Bool.false_eq_true, if_false,
          List.mem_cons] at hw
        rcases hw with hw | hw
        · subst hw
          exact Or.inr (List.mem_reverse.mp hc)
        · rcases ih [] w hw c hc with h2 | h2
          · exact Or.inl (List.mem_cons_of_mem a h2)
          · simp at h2
    · simp only [wordsAux, ha, Bool.false_eq_true, if_false] at hw
      rcases ih (a :: acc) w hw c hc with h2 | h2
      · exact Or.inl (List.mem_cons_of_mem a h2)
      · rcases List.mem_cons.mp h2 with h2 | h2
        · exact Or.inl (h2 ▸ List.mem_cons_self a cs)
        · exact Or.inr h2

theorem joinSp_cons2 (w w2 : List Char) (ws : List (List Char)) :
    joinSp (w :: w2 :: ws) = w ++ ' ' :: joinSp (w2 :: ws) := rfl

theorem isEmpty_false_of_ne_nil {α : Type} {l : List α} (h : l ≠ []) :
    l.isEmpty = false := by
  cases l with
  | nil => exact absurd rfl h
  | cons a t => rfl

theorem mem_joinSp :
    ∀ ws : List (List Char), ∀ c ∈ joinSp ws, (∃ w ∈ ws, c ∈ w) ∨ c = ' ' := by
  intro ws
  induction ws with
  | nil => intro c hc; simp [joinSp] at hc
  | cons w ws ih =>
    intro c hc
    cases ws with
    | nil =>
      simp only [joinSp] at hc
      exact Or.inl ⟨w, List.mem_singleton.mpr rfl, hc⟩
    | cons w2 rest =>
      rw [joinSp_cons2] at hc
      rcases List.mem_append.mp hc with hc | hc
      · exact Or.inl ⟨w, List.mem_cons_self w _, hc⟩
      · rcases List.mem_cons.mp hc with hc | hc
        · exact Or.inr hc
        · rcases ih c hc with ⟨w3, hw3, hcw3⟩ | hc
          · exact Or.inl ⟨w3, List.mem_cons_of_mem w hw3, hcw3⟩
          · exact Or.inr hc

theorem wordsChars_joinSp :
    ∀ ws : List (List Char),
      (∀ w ∈ ws, w ≠ [] ∧ ∀ c ∈ w, pyWs c = false) →
        wordsChars (joinSp ws) = ws := by
  intro ws
  induction ws with
  | nil => intro _; rfl
  | cons w ws ih =>
    intro h
    rcases h w (List.mem_cons_self w ws) with ⟨hne, hnws⟩
    cases ws with
    | nil =>
      have h1 := wordsAux_append_word hnws [] []
      simp only [List.append_nil] at h1
      show wordsAux w [] = [w]
      rw [h1]
      show (if w.reverse.isEmpty then [] else [w.reverse.reverse]) = [w]
      rw [isEmpty_false_of_ne_nil (by simp [hne])]
      simp
    | cons w2 rest =>
      have ih2 := ih fun x hx => h x (List.mem_cons_of_mem w hx)
      show wordsAux (joinSp (w :: w2 :: rest)) [] = w :: w2 :: rest
      rw [joinSp_cons2]
      have h1 := wordsAux_append_word hnws (' ' :: joinSp (w2 :: rest)) []
      simp only [List.append_nil] at h1
      rw [h1]
      show (if w.reverse.isEmpty then wordsAux (joinSp (w2 :: rest)) []
            else w.reverse.reverse :: wordsAux (joinSp (w2 :: rest)) []) = w :: w2 :: rest
      rw [isEmpty_false_of_ne_nil (by simp [hne])]
      simp only [Bool.false_eq_true, if_false, List.reverse_reverse]
      rw [show wordsAux (joinSp (w2 :: rest)) [] = wordsChars (joinSp (w2 :: rest)) from rfl]
      rw [ih2]

theorem subW_chars : ∀ l : List Char, ∀ c ∈ subW l, (isWordChar c || pyWs c) = true := by
  intro l c hc
  rcases List.mem_map.mp hc with ⟨a, _, ha⟩
  by_cases h : (isWordChar a || pyWs a) = true
  · rw [← ha]; simpa [h]
  · have : c = ' ' := by rw [← ha]; simp [h]
    subst this
    rfl

theorem subW_id {m : List Char} (h : ∀ c ∈ m, (isWordChar c || pyWs c) = true) :
    subW m = m := by
  unfold subW
  induction m with
  | nil => rfl
  | cons c cs ih =>
    have hc := h c (List.mem_cons_self c cs)
    simp only [List.map_cons, hc, if_true]
    rw [ih fun d hd => h d (List.mem_cons_of_mem c hd)]

/-- Idempotence at the character-list level. -/
theorem cleanChars_idem (l : List Char) : cleanChars (cleanChars l) = cleanChars l := by
  have hwords : ∀ w ∈ wordsChars (subW l), w ≠ [] ∧ ∀ c ∈ w, pyWs c = false :=
    wordsAux_words_ok (subW l) [] (by simp)
  have hchars : ∀ c ∈ cleanChars l, (isWordChar c || pyWs c) = true := by
    intro c hc
    rcases mem_joinSp (wordsChars (subW l)) c hc with ⟨w, hw, hcw⟩ | hc
    · rcases wordsAux_chars_from (subW l) [] w hw c hcw with h2 | h2
      · exact subW_chars l c h2
      · simp at h2
    · subst hc; rfl
  show joinSp (wordsChars (subW (cleanChars l))) = cleanChars l
  rw [subW_id hchars]
  show joinSp (wordsChars (joinSp (wordsChars (subW l)))) = cleanChars l
  rw [wordsChars_joinSp (wordsChars (subW l)) hwords]
  rfl

/-! ## Claim C7 -/

/-- C7: the query normalizer is idempotent and normalizes the empty string
to the empty string.  (It is a total Lean function of the whole input
string, which is the shallow-embedding rendering of "never raises": the
source performs only a regex substitution, a split and a join, none of
which can throw.) -/
theorem clean_query_idempotent :
    (∀ s : String, clean_query (clean_query s) = clean_query s) ∧ clean_query "" = "" := by
  constructor
  · intro s
    exact congrArg String.mk (cleanChars_idem s.data)
  · rfl

/-! ## Lemmas about `_build_context` -/

theorem head_dash (t : String) : ("- " ++ t).data.head? = some '-' := by
  cases t
  rfl

theorem isEmpty_take3 {α : Type} (l : List α) : (l.take 3).isEmpty = l.isEmpty := by
  cases l <;> rfl

theorem isEmpty_take2 {α : Type} (l : List α) : (l.take 2).isEmpty = l.isEmpty := by
  cases l <;> rfl

theorem mem_acts_block {A : List StatuteSection} {p : String}
    (hp : p ∈ (if A.isEmpty then []
               else "Relevant Bare Act Sections:" :: (A.take 3).map fmtAct)) :
    A ≠ [] ∧ (p = "Relevant Bare Act Sections:" ∨ p.data.head? = some '-') := by
  by_cases h : A.isEmpty
  · rw [if_pos h] at hp
    simp at hp
  · rw [if_neg h] at hp
    refine ⟨fun hA => h (by rw [hA]; rfl), ?_⟩
    rcases List.mem_cons.mp hp with hp | hp
    · exact Or.inl hp
    · rcases List.mem_map.mp hp with ⟨a, _, ha⟩
      exact Or.inr (ha ▸ head_dash _)

theorem mem_cases_block {B : List Result} {p : String}
    (hp : p ∈ (if B.isEmpty then []
               else "\nRelevant Case Laws:" :: (B.take 3).map fmtCase)) :
    B ≠ [] ∧ (p = "\nRelevant Case Laws:" ∨ p.data.head? = some '-') := by
  by_cases h : B.isEmpty
  · rw [if_pos h] at hp
    simp at hp
  · rw [if_neg h] at hp
    refine ⟨fun hB => h (by rw [hB]; rfl), ?_⟩
    rcases List.mem_cons.mp hp with hp | hp
    · exact Or.inl hp
    · rcases List.mem_map.mp hp with ⟨a, _, ha⟩
      exact Or.inr (ha ▸ head_dash _)

theorem mem_docs_block {C : List VectorDoc} {p : String}
    (hp : p ∈ (if C.isEmpty then []
               else "\nAdditional Context:" :: (C.take 2).map fmtDoc)) :
    C ≠ [] ∧ (p = "\nAdditional Context:" ∨ p.data.head? = some '-') := by
  by_cases h : C.isEmpty
  · rw [if_pos h] at hp
    simp at hp
  · rw [if_neg h] at hp
    refine ⟨fun hC => h (by rw [hC]; rfl), ?_⟩
    rcases List.mem_cons.mp hp with hp | hp
    · exact Or.inl hp
    · rcases List.mem_map.mp hp with ⟨a, _, ha⟩
      exact Or.inr (ha ▸ head_dash _)

/-! ## Claim C6 -/

/-- C6: `_build_context` places at most 3 statute sections, 3 case-law
entries and 2 vector snippets in the block, regardless of the input
lengths (inputs beyond those caps have no effect at all); every emitted
snippet is the document text cut to 200 characters with the explicit
truncation indicator `...` appended; and a category with an empty input
contributes no header line to the block. -/
theorem build_context_caps_and_omits_empty (bare_acts : List StatuteSection)
    (case_laws : List Result) (vector_docs : List VectorDoc) :
    build_context bare_acts case_laws vector_docs =
        build_context (bare_acts.take 3) (case_laws.take 3) (vector_docs.take 2) ∧
      (∀ d ∈ vector_docs.take 2,
        ("- " ++ (d.page_content.take 200 ++ "...")) ∈
          context_parts bare_acts case_laws vector_docs) ∧
      (bare_acts = [] →
        "Relevant Bare Act Sections:" ∉ context_parts bare_acts case_laws vector_docs) ∧
      (case_laws = [] →
        "\nRelevant Case Laws:" ∉ context_parts bare_acts case_laws vector_docs) ∧
      (vector_docs = [] →
        "\nAdditional Context:" ∉ context_parts bare_acts case_laws vector_docs) := by
  refine ⟨?_, ?_, ?_, ?_, ?_⟩
  · simp [build_context, context_parts, List.take_take, isEmpty_take3, isEmpty_take2]
  · intro d hd
    cases vector_docs with
    | nil => simp at hd
    | cons v vs =>
      exact List.mem_append_right _
        (List.mem_cons_of_mem _ (List.mem_map.mpr ⟨d, hd, rfl⟩))
  · rintro rfl habs
    rcases List.mem_append.mp habs with h1 | h2
    · rcases List.mem_append.mp h1 with ha | hb
      · exact absurd rfl (mem_acts_block ha).1
      · rcases (mem_cases_block hb).2 with h | h
        · exact absurd h (by decide)
        · exact absurd h (by decide)
    · rcases (mem_docs_block h2).2 with h | h
      · exact absurd h (by decide)
      · exact absurd h (by decide)
  · rintro rfl habs
    rcases List.mem_append.mp habs with h1 | h2
    · rcases List.mem_append.mp h1 with ha | hb
      · rcases (mem_acts_block ha).2 with h | h
        · exact absurd h (by decide)
        · exact absurd h (by decide)
      · exact absurd rfl (mem_cases_block hb).1
    · rcases (mem_docs_block h2).2 with h | h
      · exact absurd h (by decide)
      · exact absurd h (by decide)
  · rintro rfl habs
    rcases List.mem_append.mp habs with h1 | h2
    · rcases List.mem_append.mp h1 with ha | hb
      · rcases (mem_acts_block ha).2 with h | h
        · exact absurd h (by decide)
        · exact absurd h (by decide)
      · rcases (mem_cases_block hb).2 with h | h
        · exact absurd h (by decide)
        · exact absurd h (by decide)
    · exact absurd rfl (mem_docs_block h2).1

/-- Witness for C6: on concrete inputs with no statute sections, the
truncated snippet line is present and the statute header is absent. -/
theorem build_context_caps_and_omits_empty_witness :
    ("- " ++ ("short snippet".take 200 ++ "...")) ∈
        context_parts [] [sampleResult] [sampleDoc] ∧
      "Relevant Bare Act Sections:" ∉ context_parts [] [sampleResult] [sampleDoc] :=
  ⟨(build_context_caps_and_omits_empty [] [sampleResult] [sampleDoc]).2.1 sampleDoc
      (by decide),
    (build_context_caps_and_omits_empty [] [sampleResult] [sampleDoc]).2.2.1 rfl⟩

/-! ## Concrete score evaluations (used by the C3 refutation) -/

theorem rankScore_lowRec : rankScore "bank" lowRec = 0 := by
  have h : rankScore "bank" lowRec =
      (((0 : Nat) : ℚ) * 2.0 + ((0 : Nat) : ℚ) * 1.0 + 0 + 0) := rfl
  rw [h]
  norm_num

theorem rankScore_highRec : rankScore "bank" highRec = 7 / 2 := by
  have h : rankScore "bank" highRec =
      (((0 : Nat) : ℚ) * 2.0 + ((1 : Nat) : ℚ) * 1.0 + 1.5 + 1.0) := rfl
  rw [h]
  norm_num

theorem sortDesc_pair (a b : Result) (h : ¬ b.relevance ≤ a.relevance) :
    sortDesc [a, b] = [b, a] := by
  simp [sortDesc, insertDesc, h]

/-! ## Claim C3 -/

/-- C3 counterexample: with `limit = 1` and two fetched fragments — the
first parsing to a result that scores 0 for the query `"bank"`, the second
to one that scores 3.5 — `search_cases` returns the low-scoring first
result, whereas the pipeline the claim describes (parse, enhance and score
every fetched fragment, rank, only then truncate) would return the
high-scoring second one: the source in fact cuts the fragment list to
`limit` before parsing (`result_divs[:limit]`). -/
theorem truncate_after_ranking_only_cex :
    ¬ (search_cases (Except.ok respCrowd) "bank" [] 1 =
        (rank_by_relevance
            (enhance_with_topics (respCrowd.result_divs.filterMap parse_search_result) [])
            "bank").take 1) := by
  intro hEq
  have hL : (search_cases (Except.ok respCrowd) "bank" [] 1).map Result.id = ["1"] := rfl
  have hparse : respCrowd.result_divs.filterMap parse_search_result = [lowRec, highRec] := rfl
  have henh : enhance_with_topics [lowRec, highRec] [] = [lowRec, highRec] := rfl
  have hlt : ¬ ((assignRel "bank" highRec).relevance ≤ (assignRel "bank" lowRec).relevance) := by
    show ¬ (rankScore "bank" highRec ≤ rankScore "bank" lowRec)
    rw [rankScore_lowRec, rankScore_highRec]
    norm_num
  have hrank : rank_by_relevance [lowRec, highRec] "bank" =
      [assignRel "bank" highRec, assignRel "bank" lowRec] := by
    show sortDesc [assignRel "bank" lowRec, assignRel "bank" highRec] = _
    exact sortDesc_pair _ _ hlt
  have hR : ((rank_by_relevance
      (enhance_with_topics (respCrowd.result_divs.filterMap parse_search_result) [])
      "bank").take 1).map Result.id = ["2"] := by
    rw [hparse, henh, hrank]
    rfl
  rw [hEq, hR] at hL
  exact absurd hL (by decide)

/-- C3 amended: truncation to `limit` happens twice, not once after
ranking: the fetched fragment list is cut to its first `limit` elements
before parsing, every surviving fragment is then parsed, topic-enhanced
and scored, and the ranked list is cut to `limit` again — so a low-scoring
fragment among the first `limit` can crowd out a high-scoring later
one. -/
theorem truncate_before_parse_and_after_rank (resp : HttpResponse) (query : String)
    (topics : List String) (limit : Nat) (h : resp.status = 200) :
    search_cases (Except.ok resp) query topics limit =
      (rank_by_relevance
          (enhance_with_topics ((resp.result_divs.take limit).filterMap parse_search_result)
            topics)
          query).take limit := by
  simp [search_cases, search_indiankanoon, h]

/-- Witness for the amended C3 on a concrete 200 response. -/
theorem truncate_before_parse_and_after_rank_witness :
    search_cases (Except.ok respCrowd) "bank" [] 1 =
      (rank_by_relevance
          (enhance_with_topics ((respCrowd.result_divs.take 1).filterMap parse_search_result)
            [])
          "bank").take 1 :=
  truncate_before_parse_and_after_rank respCrowd "bank" [] 1 rfl

/-! ## Claim C4 -/

/-- C4 counterexample: an exception while parsing one fragment is caught
per fragment and only that fragment is skipped, so `search_cases` returns
the remaining (nonempty) results — not the empty sequence the claim
prescribes for "an exception anywhere in parsing".  `respPartial`'s first
fragment raises during parsing; its second parses fine. -/
theorem search_cases_partial_on_parse_exception :
    ¬ (search_cases (Except.ok respPartial) "bank" [] 10 = []) := by
  intro h
  have hlen : (search_cases (Except.ok respPartial) "bank" [] 10).length = 1 := rfl
  rw [h] at hlen
  exact absurd hlen (by decide)

/-- C4 amended: `search_cases` never raises (it is a total function into
plain result lists, with every fallible step modelled explicitly); it
returns the empty sequence on a transport/network exception and on any
non-success HTTP status; and an exception while parsing a single fragment
yields `None` for that fragment only, which the fragment loop skips,
leaving the remaining results (possibly a nonempty partial sequence). -/
theorem search_cases_fail_soft (query : String) (topics : List String) (limit : Nat) :
    (∀ e : String, search_cases (Except.error e) query topics limit = []) ∧
      (∀ resp : HttpResponse, resp.status ≠ 200 →
        search_cases (Except.ok resp) query topics limit = []) ∧
      ∀ div : ResultDiv, div.raises = true → parse_search_result div = none := by
  refine ⟨?_, ?_, ?_⟩
  · intro e
    simp [search_cases, search_indiankanoon, enhance_with_topics, rank_by_relevance,
      sortDesc]
  · intro resp h
    simp [search_cases, search_indiankanoon, h, enhance_with_topics, rank_by_relevance,
      sortDesc]
  · intro div h
    simp [parse_search_result, h]

/-- Witness for the amended C4: a transport exception and a 404 status
both yield the empty sequence; the raising fragment parses to `None`. -/
theorem search_cases_fail_soft_witness :
    search_cases (Except.error "connection reset") "bank" [] 10 = [] ∧
      search_cases (Except.ok { status := 404, result_divs := [lowDiv] }) "bank" [] 10 = [] ∧
      parse_search_result badDiv = none :=
  ⟨(search_cases_fail_soft "bank" [] 10).1 "connection reset",
    (search_cases_fail_soft "bank" [] 10).2.1 _ (by decide),
    (search_cases_fail_soft "bank" [] 10).2.2 badDiv rfl⟩

/-! ## Claim C9 -/

/-- C9 (code bug): on page text containing the citation
`[2020] 5 SCC 123`, `_extract_citations` returns `["2020"]` — only the
regex capture group, the bracketed year, because `re.findall` applied to a
pattern with a capturing group returns the list of groups — and not the
full citation string that the specification (and the function's own
docstring and example comment) call for. -/
theorem extract_citations_drops_reporter :
    extract_citations "as held in [2020] 5 SCC 123" = ["2020"] ∧
      "[2020] 5 SCC 123" ∉ extract_citations "as held in [2020] 5 SCC 123" := by
  constructor
  · rfl
  · decide

end LegalAI
